import Mathlib

/-!
Verification of the QRVerse input safety validator (`validateInputSafety`,
enhanced variant) against its natural-language specification.

The JavaScript source is shallowly embedded: strings are Lean `String`s
(lists of Unicode scalar values), JavaScript's `decodeURIComponent` and the
WHATWG `new URL` constructor are modelled as `Option`-returning Lean
functions, and the validator itself is a total Lean function returning a
`Verdict` record.
-/

namespace QRVerse

/-- Model of JavaScript `toLowerCase` on a single character, restricted to
ASCII case mapping (the only case mapping the validator's rule tables and
the claims exercise). -/
def jsCharLower (c : Char) : Char :=
  if 65 ≤ c.toNat ∧ c.toNat ≤ 90 then Char.ofNat (c.toNat + 32) else c

/-- ASCII letter test, both cases (the `[a-z]` class under the `/i` flag). -/
def isAsciiLetter (c : Char) : Bool :=
  (97 ≤ c.toNat ∧ c.toNat ≤ 122) ∨ (65 ≤ c.toNat ∧ c.toNat ≤ 90)

/-- ASCII letter-or-digit test (the `[a-z0-9]` class under the `/i` flag). -/
def isAsciiAlnum (c : Char) : Bool :=
  isAsciiLetter c || (48 ≤ c.toNat ∧ c.toNat ≤ 57)

/-- ASCII digit test. -/
def isAsciiDigit (c : Char) : Bool :=
  48 ≤ c.toNat ∧ c.toNat ≤ 57

/-- Model of the JavaScript `String.prototype.trim` whitespace class
(ECMAScript WhiteSpace and LineTerminator code points). -/
def jsIsWhite (c : Char) : Bool :=
  c.toNat = 9 || c.toNat = 10 || c.toNat = 11 || c.toNat = 12 || c.toNat = 13 ||
  c.toNat = 32 || c.toNat = 160 || c.toNat = 5760 ||
  (8192 ≤ c.toNat ∧ c.toNat ≤ 8202) ||
  c.toNat = 8232 || c.toNat = 8233 || c.toNat = 8239 || c.toNat = 8287 ||
  c.toNat = 12288 || c.toNat = 65279

/-- Lower-case an entire string (model of `toLowerCase`). -/
def jsLower (s : String) : String :=
  ⟨s.data.map jsCharLower⟩

/-- Trim on char lists: drop leading and trailing JS whitespace. -/
def trimL (l : List Char) : List Char :=
  ((l.dropWhile jsIsWhite).reverse.dropWhile jsIsWhite).reverse

/-- Model of `String.prototype.trim`. -/
def jsTrim (s : String) : String :=
  ⟨trimL s.data⟩

/-- Remove NUL characters (the `replace(/\x00/g, "")` step). -/
def stripNul (s : String) : String :=
  ⟨s.data.filter (fun c => c.toNat ≠ 0)⟩

/-- Prefix test on strings via their character lists. -/
def listStartsWith (s p : String) : Bool :=
  p.data.isPrefixOf s.data

/-- Case-insensitive anchored prefix test: the model of an `/^pat/i` regex
test where `pat` is a lower-case ASCII literal. -/
def ciStartsWith (s p : String) : Bool :=
  p.data.isPrefixOf (s.data.map jsCharLower)

/-- Value of one hexadecimal digit, if the character is one. -/
def hexVal (c : Char) : Option Nat :=
  if 48 ≤ c.toNat ∧ c.toNat ≤ 57 then some (c.toNat - 48)
  else if 97 ≤ c.toNat ∧ c.toNat ≤ 102 then some (c.toNat - 87)
  else if 65 ≤ c.toNat ∧ c.toNat ≤ 70 then some (c.toNat - 55)
  else none

/-- First phase of `decodeURIComponent`: turn each `%XX` escape into a byte
(`Sum.inr`), leave other characters (`Sum.inl`); fail on a malformed escape,
as the JavaScript builtin throws `URIError` there. -/
def percentTokens : List Char → Option (List (Sum Char Nat))
  | [] => some []
  | '%' :: h1 :: h2 :: rest => do
    let a ← hexVal h1
    let b ← hexVal h2
    let t ← percentTokens rest
    pure (Sum.inr (16 * a + b) :: t)
  | '%' :: _ => none
  | c :: rest => do
    let t ← percentTokens rest
    pure (Sum.inl c :: t)

/-- Continuation-byte test for UTF-8 decoding. -/
def isContByte (b : Nat) : Bool :=
  128 ≤ b ∧ b ≤ 191

/-- Second phase of `decodeURIComponent`: reassemble the escaped bytes as
strict UTF-8 (the ECMAScript `Decode` algorithm fails on any byte sequence
that is not a valid UTF-8 encoding of a scalar value). -/
def utf8Assemble : List (Sum Char Nat) → Option (List Char)
  | [] => some []
  | Sum.inl c :: rest => do
    let t ← utf8Assemble rest
    pure (c :: t)
  | Sum.inr b :: rest =>
    if b ≤ 127 then do
      let t ← utf8Assemble rest
      pure (Char.ofNat b :: t)
    else if 194 ≤ b ∧ b ≤ 223 then
      match rest with
      | Sum.inr b2 :: rest2 =>
        if isContByte b2 then do
          let t ← utf8Assemble rest2
          pure (Char.ofNat ((b - 192) * 64 + (b2 - 128)) :: t)
        else none
      | _ => none
    else if 224 ≤ b ∧ b ≤ 239 then
      match rest with
      | Sum.inr b2 :: Sum.inr b3 :: rest2 =>
        let cp := (b - 224) * 4096 + (b2 - 128) * 64 + (b3 - 128)
        if isContByte b2 ∧ isContByte b3 ∧ 2048 ≤ cp ∧ (cp < 55296 ∨ 57343 < cp) then do
          let t ← utf8Assemble rest2
          pure (Char.ofNat cp :: t)
        else none
      | _ => none
    else if 240 ≤ b ∧ b ≤ 244 then
      match rest with
      | Sum.inr b2 :: Sum.inr b3 :: Sum.inr b4 :: rest2 =>
        let cp := (b - 240) * 262144 + (b2 - 128) * 4096 + (b3 - 128) * 64 + (b4 - 128)
        if isContByte b2 ∧ isContByte b3 ∧ isContByte b4 ∧ 65536 ≤ cp ∧ cp ≤ 1114111 then do
          let t ← utf8Assemble rest2
          pure (Char.ofNat cp :: t)
        else none
      | _ => none
    else none

/-- Model of JavaScript `decodeURIComponent`: `none` models a thrown
`URIError`. -/
def jsDecodeURIComponent (s : String) : Option String := do
  let toks ← percentTokens s.data
  let chars ← utf8Assemble toks
  pure ⟨chars⟩

/-- The validator's multi-level decoding loop: up to `n` rounds of
`decodeURIComponent`, stopping early on a fixpoint or on a decoding error
(in which case the last successfully decoded value is kept). -/
def decodeLoop : Nat → String → String
  | 0, s => s
  | n + 1, s =>
    match jsDecodeURIComponent s with
    | none => s
    | some t => if t = s then s else decodeLoop n t

/-- Remove ASCII tab and newline characters, as the WHATWG URL parser does
to its input before parsing. -/
def stripTabNL (l : List Char) : List Char :=
  l.filter (fun c => c.toNat ≠ 9 ∧ c.toNat ≠ 10 ∧ c.toNat ≠ 13)

/-- C0-control-or-space test (code points up to U+0020), the class the
WHATWG URL parser strips from both ends of its input. -/
def isC0OrSpace (c : Char) : Bool :=
  c.toNat ≤ 32

/-- Strip leading and trailing C0 controls and spaces. -/
def c0Strip (l : List Char) : List Char :=
  ((l.dropWhile isC0OrSpace).reverse.dropWhile isC0OrSpace).reverse

/-- Characters allowed after the first in a URL scheme. -/
def isSchemeChar (c : Char) : Bool :=
  isAsciiAlnum c || c = '+' || c = '-' || c = '.'

/-- The fields of a parsed URL this validator observes. -/
structure JsUrl where
  scheme : String
  hostname : String
  pathname : String
deriving DecidableEq

/-- Parse a leading `scheme:`; returns the lower-cased scheme and the
characters after the colon. -/
def parseScheme : List Char → Option (String × List Char)
  | [] => none
  | c :: rest =>
    if isAsciiLetter c then
      match rest.dropWhile isSchemeChar with
      | ':' :: rest2 =>
        some (⟨jsCharLower c :: (rest.takeWhile isSchemeChar).map jsCharLower⟩, rest2)
      | _ => none
    else none

/-- Extract the host name from an authority component: drop the user-info
part (everything up to the last `@`), then split off a port, which must be
all digits; the host must be non-empty.  Failure models the `new URL`
constructor throwing. -/
def hostFromAuth (auth : List Char) : Option String :=
  let hostPort := (auth.reverse.takeWhile (fun c => c ≠ '@')).reverse
  let host := hostPort.takeWhile (fun c => c ≠ ':')
  if host = [] then none
  else
    match hostPort.dropWhile (fun c => c ≠ ':') with
    | [] => some ⟨host.map jsCharLower⟩
    | _ :: ds => if ds.all isAsciiDigit then some ⟨host.map jsCharLower⟩ else none

/-- Characters that continue the authority component (anything up to the
first `/`, `?` or `#`). -/
def authBreak (c : Char) : Bool :=
  c ≠ '/' ∧ c ≠ '?' ∧ c ≠ '#'

/-- Keep the part before the first `?` or `#` (the `split(/[?#]/)[0]`
step). -/
def splitQH (l : List Char) : List Char :=
  l.takeWhile (fun c => c ≠ '?' ∧ c ≠ '#')

/-- Core URL parse on a cleaned character list: `scheme://authority/path`,
with the query and fragment split off the path.  Inputs without a scheme
followed by `//` fail, modelling the constructor throwing on them (opaque-
path URLs never change this validator's observable behavior: their empty
hostname matches no host rule and their trailing extension is the same one
the fallback extraction finds). -/
def parseURL (l : List Char) : Option JsUrl :=
  (parseScheme l).bind fun p =>
    if p.2.take 2 = ['/', '/'] then
      (hostFromAuth ((p.2.drop 2).takeWhile authBreak)).map fun host =>
        { scheme := p.1, hostname := host,
          pathname :=
            if splitQH ((p.2.drop 2).dropWhile authBreak) = [] then "/"
            else ⟨splitQH ((p.2.drop 2).dropWhile authBreak)⟩ }
    else none

/-- Model of the WHATWG `new URL` constructor restricted to what the
validator observes: tab and newline stripping, C0/space trimming, and the
scheme / hostname / pathname split.  `none` models a thrown `TypeError`. -/
def jsURL (s : String) : Option JsUrl :=
  parseURL (c0Strip (stripTabNL s.data))

/-- Model of `match(/\.([a-z0-9]+)$/i)`: the trailing maximal alphanumeric
run, provided it is non-empty and preceded by a dot; otherwise `[]`. -/
def extMatchTail (l : List Char) : List Char :=
  if (l.reverse.dropWhile isAsciiAlnum).head? = some '.' ∧
      l.reverse.takeWhile isAsciiAlnum ≠ []
  then (l.reverse.takeWhile isAsciiAlnum).reverse else []

/-- Extension extraction from one character list: strip the query and
fragment, match the trailing-extension pattern, lower-case the result. -/
def extFromList (l : List Char) : String :=
  ⟨(extMatchTail (splitQH l)).map jsCharLower⟩

/-- The validator's file-extension extraction (step 5 of the source): via
the URL's lower-cased pathname when the URL parses, else via the raw
decoded string. -/
def computeExtension (decoded : String) : String :=
  (jsURL decoded).elim (extFromList decoded.data)
    (fun u => extFromList (u.pathname.data.map jsCharLower))

/-- The extension tokens of the hidden-executable regex
`/\.(exe|msi|bat|cmd|vbs|scr|dll|jar|apk|ps1|sh|aab)(?=[^a-z]|$)/i`. -/
def hiddenTokens : List String :=
  ["exe", "msi", "bat", "cmd", "vbs", "scr", "dll", "jar", "apk", "ps1", "sh", "aab"]

/-- Case-insensitive literal match of a lower-case token at the front of a
character list; returns the remaining characters on success. -/
def matchCI : List Char → List Char → Option (List Char)
  | [], rest => some rest
  | _ :: _, [] => none
  | t :: ts, c :: cs => if jsCharLower c = t then matchCI ts cs else none

/-- Does one hidden-executable alternative match at the head of `l`
(a dot, a token, then a non-letter or end of string)? -/
def hiddenAt (l : List Char) : Bool :=
  match l with
  | '.' :: rest =>
    hiddenTokens.any fun t =>
      match matchCI t.data rest with
      | some [] => true
      | some (c :: _) => !isAsciiLetter c
      | none => false
  | _ => false

/-- The `.test` of the hidden-executable regex: does any position of the
string start a match? -/
def hiddenScan : List Char → Bool
  | [] => false
  | c :: rest => hiddenAt (c :: rest) || hiddenScan rest

/-- The verdict record returned by the validator. -/
structure Verdict where
  status : String
  reasonCode : String
  message : String
deriving DecidableEq

/-- A JavaScript argument value for the `content` parameter: a string, or
any non-string value (`undefined`, `null`, numbers, objects, ...), which
the validator's `typeof content !== "string"` guard treats uniformly. -/
inductive JsInput where
  | str (s : String)
  | nonString
deriving DecidableEq

/-- The non-URL input types of the source (step 2). -/
def nonUrlTypes : List String :=
  ["Text", "Wi-Fi", "Email", "vCard", "Phone", "SMS", "Event", "Geo", "UPI", "MECARD"]

/-- Alternatives of `unsafeProtocolPattern`. -/
def unsafeProtocols : List String :=
  ["javascript:", "data:", "file:", "vbscript:", "about:", "filesystem:"]

/-- Alternatives of `riskyProtocolPattern`. -/
def riskyProtocols : List String :=
  ["ftp:", "telnet:", "ssh:", "mms:", "rtsp:", "magnet:"]

/-- The `blockedExtensions` table of the source. -/
def blockedExtensions : List String :=
  ["exe", "msi", "bat", "cmd", "vbs", "scr", "dll", "com", "jar", "ps1", "sh",
   "apk", "aab", "app", "dmg", "pkg", "deb", "rpm", "img", "bin", "crx", "xpi"]

/-- The `archiveExtensions` table of the source. -/
def archiveExtensions : List String :=
  ["zip", "rar", "7z", "tar", "tgz", "tar.gz", "gz", "bz2", "xz", "iso"]

/-- The `macroEnabledDocs` table of the source. -/
def macroEnabledDocs : List String :=
  ["docm", "xlsm", "pptm"]

/-- The `shortenerDomains` table of the source. -/
def shortenerDomains : List String :=
  ["bit.ly", "t.co", "tinyurl.com", "goo.gl", "ow.ly", "buff.ly", "dlvr.it",
   "rebrand.ly", "cutt.ly"]

/-- The normalization pipeline of the source (steps 1 and 2 of the spec):
trim, lower-case, decode up to three rounds, strip NUL characters. -/
def normalizeContent (c : String) : String :=
  stripNul (decodeLoop 3 (jsLower (jsTrim c)))

/-- The `isUrlLike` flag of the source:
`/^https?:\/\//i.test(decoded) || /^ftp:\/\//i.test(decoded)`. -/
def isUrlLikeB (decoded : String) : Bool :=
  ciStartsWith decoded "http://" || ciStartsWith decoded "https://" ||
    ciStartsWith decoded "ftp://"

/-- The verdict of the emptiness check (step 1). -/
def emptyVerdict : Verdict :=
  { status := "block", reasonCode := "EMPTY",
    message := "Please enter content to generate a QR code." }

/-- The verdict of the non-URL type bypass (step 2). -/
def nonUrlSafeVerdict : Verdict :=
  { status := "ok", reasonCode := "SAFE",
    message := "Content type is non-URL and safe." }

/-- The verdict of the unsafe-protocol rule (step 3). -/
def unsafeVerdict : Verdict :=
  { status := "block", reasonCode := "UNSAFE_PROTOCOL",
    message := "Blocked — unsafe URL scheme (javascript:, data:, file:, etc.) detected." }

/-- The verdict of the risky-protocol rule (step 3). -/
def riskyVerdict : Verdict :=
  { status := "warn", reasonCode := "RISKY_PROTOCOL",
    message := "Warning — non-secure protocol detected (ftp, telnet, etc.)." }

/-- The verdict of the hidden-executable rule (step 6). -/
def hiddenVerdict : Verdict :=
  { status := "block", reasonCode := "EXECUTABLE_HIDDEN",
    message := "Blocked — hidden executable signature detected in encoded or obfuscated URL." }

/-- The verdict of the blocked-extension rule (step 7). -/
def execVerdict (extension : String) : Verdict :=
  { status := "block", reasonCode := "EXECUTABLE",
    message := "Blocked — executable or installable file type (." ++ extension ++
      ") is not allowed for safety reasons." }

/-- The blocking verdict of the archive rule (step 8, unverified caller). -/
def archiveBlockVerdict (extension : String) : Verdict :=
  { status := "block", reasonCode := "ARCHIVE",
    message := "Archive file (." ++ extension ++
      ") links are restricted to verified users for safety." }

/-- The warning verdict of the archive rule (step 8, verified caller). -/
def archiveWarnVerdict (extension : String) : Verdict :=
  { status := "warn", reasonCode := "ARCHIVE",
    message := "Archive link detected (." ++ extension ++
      "). Proceed with caution and share only with trusted users." }

/-- The verdict of the macro-document rule (step 9). -/
def macroVerdict (extension : String) : Verdict :=
  { status := "warn", reasonCode := "MACRO_DOC",
    message := "Macro-enabled document (." ++ extension ++
      ") detected. These may contain embedded scripts. Verify file before sharing." }

/-- The verdict of the punycode rule (step 10). -/
def punycodeVerdict : Verdict :=
  { status := "warn", reasonCode := "PUNYCODE_DOMAIN",
    message := "Caution — this domain uses internationalized (Punycode) characters. Verify that it belongs to a trusted source before sharing or scanning." }

/-- The verdict of the shortener rule (step 10). -/
def shortenerVerdict (domain : String) : Verdict :=
  { status := "warn", reasonCode := "SHORTENER",
    message := "Shortened URL detected (" ++ domain ++
      "). Expand the link before generating a QR code." }

/-- The verdict of the plain-HTTP rule (step 11). -/
def httpVerdict : Verdict :=
  { status := "warn", reasonCode := "HTTP",
    message := "Warning — non-secure HTTP link detected. Use HTTPS whenever possible." }

/-- The verdict of the default safe case (step 12). -/
def safeUrlVerdict : Verdict :=
  { status := "ok", reasonCode := "SAFE",
    message := "Looks good — this link appears safe for QR generation." }

/-- The verdict of the fallback case (step 13). -/
def invalidVerdict : Verdict :=
  { status := "block", reasonCode := "INVALID",
    message := "Invalid or unrecognized input. Please enter a valid URL or text." }

/-- Steps 11 to 13 of the source: plain HTTP warning, default safe case,
invalid fallback.  Note the two `startsWith` tests here are exact, not
case-insensitive, exactly as in the source. -/
def httpFallback (decoded : String) : Verdict :=
  if listStartsWith decoded "http://" then httpVerdict
  else if isUrlLikeB decoded || listStartsWith decoded "https://" then safeUrlVerdict
  else invalidVerdict

/-- Step 10 of the source: the `try { new URL(decoded) ... } catch` block
with the punycode and shortener rules; a parse failure silently falls
through. -/
def hostChecks (decoded : String) : Verdict :=
  (jsURL decoded).elim (httpFallback decoded) fun u =>
    if listStartsWith (jsLower u.hostname) "xn--" then punycodeVerdict
    else if shortenerDomains.contains (jsLower u.hostname) then
      shortenerVerdict (jsLower u.hostname)
    else httpFallback decoded

/-- Steps 5 to 9 of the source: extension extraction, hidden-executable
scan, blocked / archive / macro extension rules. -/
def extChecks (decoded : String) (isVerifiedUser : Bool) : Verdict :=
  if hiddenScan decoded.data then hiddenVerdict
  else if blockedExtensions.contains (computeExtension decoded) then
    execVerdict (computeExtension decoded)
  else if archiveExtensions.contains (computeExtension decoded) then
    if !isVerifiedUser then archiveBlockVerdict (computeExtension decoded)
    else archiveWarnVerdict (computeExtension decoded)
  else if macroEnabledDocs.contains (computeExtension decoded) then
    macroVerdict (computeExtension decoded)
  else hostChecks decoded

/-- Steps 3 to 13 of the source, applied to the normalized decoded
string. -/
def urlChecks (decoded : String) (isVerifiedUser : Bool) : Verdict :=
  if unsafeProtocols.any (fun p => ciStartsWith decoded p) then unsafeVerdict
  else if riskyProtocols.any (fun p => ciStartsWith decoded p) then riskyVerdict
  else extChecks decoded isVerifiedUser

/-- The source's emptiness condition on the `content` argument:
`!content || typeof content !== "string" || !content.trim()`. -/
def contentBlank : JsInput → Bool
  | JsInput.nonString => true
  | JsInput.str s => s = "" || jsTrim s = ""

/-- The embedded validator: the enhanced `validateInputSafety` of the
source, rule for rule and in the source's order. -/
def validateInputSafety (inputType : String) (content : JsInput)
    (isVerifiedUser : Bool) : Verdict :=
  match content with
  | JsInput.nonString => emptyVerdict
  | JsInput.str c =>
    if c = "" ∨ jsTrim c = "" then emptyVerdict
    else if nonUrlTypes.contains inputType then nonUrlSafeVerdict
    else urlChecks (normalizeContent c) isVerifiedUser

/-- Status / reason-code pairing invariant claimed of every verdict. -/
abbrev wellFormedVerdict (r : Verdict) : Prop :=
  (r.status = "ok" ∨ r.status = "warn" ∨ r.status = "block") ∧
  (r.status = "ok" ↔ r.reasonCode = "SAFE") ∧
  (r.status = "warn" →
    r.reasonCode ∈ ["RISKY_PROTOCOL", "ARCHIVE", "MACRO_DOC", "PUNYCODE_DOMAIN",
      "SHORTENER", "HTTP"]) ∧
  (r.status = "block" →
    r.reasonCode ∈ ["EMPTY", "UNSAFE_PROTOCOL", "EXECUTABLE_HIDDEN", "EXECUTABLE",
      "ARCHIVE", "INVALID"]) ∧
  r.message ≠ ""

/-- Absence of the characters the URL parser strips from the middle of its
input (ASCII tab, LF, CR). -/
def tabNLFree (s : String) : Bool :=
  s.data.all (fun c => c.toNat ≠ 9 ∧ c.toNat ≠ 10 ∧ c.toNat ≠ 13)

/-- The ten blocked extensions the hidden-executable pattern does not
cover. -/
def nonHiddenBlocked : List String :=
  ["com", "app", "dmg", "pkg", "deb", "rpm", "img", "bin", "crx", "xpi"]

/-! ### Basic facts about the character and string primitives -/

theorem char_toNat_inj {a b : Char} (h : a.toNat = b.toNat) : a = b := by
  apply Char.ext
  apply UInt32.ext
  simpa [Char.toNat, UInt32.toNat] using h

theorem string_eq_iff_data {s t : String} : s = t ↔ s.data = t.data := by
  constructor
  · exact congrArg String.data
  · exact String.ext

theorem string_eq_empty_iff {s : String} : s = "" ↔ s.data = [] := by
  rw [string_eq_iff_data]

theorem toNat_ofNat_small (n : Nat) (h : n < 55296) : (Char.ofNat n).toNat = n := by
  simp only [Char.ofNat, Nat.isValidChar]
  rw [dif_pos (Or.inl h)]
  simp [Char.ofNatAux, Char.toNat, UInt32.toNat, UInt32.ofNatCore]

theorem jsCharLower_toNat_of_upper {c : Char} (h : 65 ≤ c.toNat ∧ c.toNat ≤ 90) :
    (jsCharLower c).toNat = c.toNat + 32 := by
  rw [jsCharLower, if_pos h]
  exact toNat_ofNat_small _ (by omega)

theorem jsCharLower_eq_of_not_upper {c : Char} (h : ¬(65 ≤ c.toNat ∧ c.toNat ≤ 90)) :
    jsCharLower c = c := by
  rw [jsCharLower, if_neg h]

theorem jsCharLower_idem (c : Char) : jsCharLower (jsCharLower c) = jsCharLower c := by
  by_cases h : 65 ≤ c.toNat ∧ c.toNat ≤ 90
  · have h2 := jsCharLower_toNat_of_upper h
    apply jsCharLower_eq_of_not_upper
    omega
  · rw [jsCharLower_eq_of_not_upper h]
    exact jsCharLower_eq_of_not_upper h

theorem jsIsWhite_jsCharLower (c : Char) : jsIsWhite (jsCharLower c) = jsIsWhite c := by
  by_cases h : 65 ≤ c.toNat ∧ c.toNat ≤ 90
  · have h2 := jsCharLower_toNat_of_upper h
    apply Bool.eq_iff_iff.mpr
    simp only [jsIsWhite, h2, Bool.or_eq_true, decide_eq_true_eq]
    omega
  · rw [jsCharLower_eq_of_not_upper h]

theorem isAsciiLetter_jsCharLower (c : Char) :
    isAsciiLetter (jsCharLower c) = isAsciiLetter c := by
  by_cases h : 65 ≤ c.toNat ∧ c.toNat ≤ 90
  · have h2 := jsCharLower_toNat_of_upper h
    apply Bool.eq_iff_iff.mpr
    simp only [isAsciiLetter, h2, decide_eq_true_eq]
    omega
  · rw [jsCharLower_eq_of_not_upper h]

theorem isAsciiAlnum_jsCharLower (c : Char) :
    isAsciiAlnum (jsCharLower c) = isAsciiAlnum c := by
  by_cases h : 65 ≤ c.toNat ∧ c.toNat ≤ 90
  · have h2 := jsCharLower_toNat_of_upper h
    apply Bool.eq_iff_iff.mpr
    simp only [isAsciiAlnum, isAsciiLetter, h2, Bool.or_eq_true, decide_eq_true_eq]
    omega
  · rw [jsCharLower_eq_of_not_upper h]

theorem jsCharLower_eq_iff {c d : Char} (h1 : ¬(65 ≤ d.toNat ∧ d.toNat ≤ 90))
    (h2 : ¬(97 ≤ d.toNat ∧ d.toNat ≤ 122)) : jsCharLower c = d ↔ c = d := by
  constructor
  · intro h
    by_cases hc : 65 ≤ c.toNat ∧ c.toNat ≤ 90
    · have h3 := jsCharLower_toNat_of_upper hc
      rw [h] at h3
      omega
    · rwa [jsCharLower_eq_of_not_upper hc] at h
  · intro h
    rw [h]
    exact jsCharLower_eq_of_not_upper h1

theorem jsLower_data (s : String) : (jsLower s).data = s.data.map jsCharLower := rfl

theorem jsLower_idem (s : String) : jsLower (jsLower s) = jsLower s := by
  apply String.ext
  simp only [jsLower_data, List.map_map]
  exact List.map_congr_left (fun a _ => jsCharLower_idem a)

theorem jsLower_eq_empty_iff (s : String) : jsLower s = "" ↔ s = "" := by
  rw [string_eq_empty_iff, string_eq_empty_iff, jsLower_data]
  simp

theorem trimL_map_jsCharLower (l : List Char) :
    trimL (l.map jsCharLower) = (trimL l).map jsCharLower := by
  simp only [trimL]
  rw [List.dropWhile_map]
  have h1 : jsIsWhite ∘ jsCharLower = jsIsWhite := by
    funext a
    exact jsIsWhite_jsCharLower a
  rw [h1, ← List.map_reverse, List.dropWhile_map, h1, ← List.map_reverse]

theorem jsTrim_jsLower (s : String) : jsTrim (jsLower s) = jsLower (jsTrim s) := by
  apply String.ext
  simp only [jsTrim, jsLower_data]
  exact trimL_map_jsCharLower s.data

theorem jsTrim_empty : jsTrim "" = "" := rfl

theorem normalizeContent_jsLower (s : String) :
    normalizeContent (jsLower s) = normalizeContent s := by
  simp only [normalizeContent, jsTrim_jsLower, jsLower_idem]

/-! ### Decomposition lemmas for the scanning primitives -/

theorem dropWhile_head_false (p : Char → Bool) (l : List Char) {c : Char} {cs : List Char}
    (h : l.dropWhile p = c :: cs) : p c = false := by
  induction l with
  | nil => simp at h
  | cons a l ih =>
    rw [List.dropWhile_cons] at h
    by_cases hp : p a
    · rw [if_pos hp] at h
      exact ih h
    · rw [if_neg hp] at h
      cases h
      simpa using hp

theorem extMatchTail_spec (l : List Char) (h : extMatchTail l ≠ []) :
    ∃ pre, l = pre ++ '.' :: extMatchTail l := by
  by_cases hc : (l.reverse.dropWhile isAsciiAlnum).head? = some '.' ∧
      l.reverse.takeWhile isAsciiAlnum ≠ []
  · rcases hd : l.reverse.dropWhile isAsciiAlnum with _ | ⟨c, cs⟩
    · rw [hd] at hc
      simp at hc
    · have hc2 := hc.1
      rw [hd] at hc2
      simp only [List.head?_cons, Option.some.injEq] at hc2
      subst hc2
      refine ⟨cs.reverse, ?_⟩
      have hsplit : l.reverse.takeWhile isAsciiAlnum ++ l.reverse.dropWhile isAsciiAlnum
          = l.reverse := List.takeWhile_append_dropWhile isAsciiAlnum l.reverse
      rw [hd] at hsplit
      have hval : extMatchTail l = (l.reverse.takeWhile isAsciiAlnum).reverse := by
        simp only [extMatchTail]
        rw [if_pos hc]
      rw [hval]
      have hl := congrArg List.reverse hsplit
      rw [List.reverse_reverse] at hl
      conv_lhs => rw [← hl]
      simp
  · rw [extMatchTail, if_neg hc] at h
    exact absurd rfl h

theorem splitQH_decomp (l : List Char) :
    ∃ rest, l = splitQH l ++ rest ∧
      (rest = [] ∨ ∃ c cs, rest = c :: cs ∧ (c = '?' ∨ c = '#')) := by
  refine ⟨l.dropWhile (fun c => c ≠ '?' ∧ c ≠ '#'), ?_, ?_⟩
  · exact (List.takeWhile_append_dropWhile _ l).symm
  · rcases hd : l.dropWhile (fun c => c ≠ '?' ∧ c ≠ '#') with _ | ⟨c, cs⟩
    · exact Or.inl rfl
    · refine Or.inr ⟨c, cs, rfl, ?_⟩
      have := dropWhile_head_false _ l hd
      simp only [decide_eq_false_iff_not, Decidable.not_and_iff_or_not, not_not] at this
      tauto

theorem matchCI_map_self (e rest : List Char) :
    matchCI (e.map jsCharLower) (e ++ rest) = some rest := by
  induction e with
  | nil => rfl
  | cons c e ih =>
    simp only [List.map_cons, List.cons_append, matchCI, if_pos rfl]
    exact ih

theorem hiddenAt_intro (t : String) (ht : t ∈ hiddenTokens) (e tail : List Char)
    (he : e.map jsCharLower = t.data)
    (htail : tail = [] ∨ ∃ c cs, tail = c :: cs ∧ isAsciiLetter c = false) :
    hiddenAt ('.' :: (e ++ tail)) = true := by
  simp only [hiddenAt, List.any_eq_true]
  refine ⟨t, ht, ?_⟩
  rw [← he, matchCI_map_self]
  rcases htail with h0 | ⟨c, cs, hc, hlet⟩
  · rw [h0]
  · rw [hc]
    show (!isAsciiLetter c) = true
    rw [hlet]
    rfl

theorem hiddenScan_suffix (pre post : List Char) (h : hiddenAt post = true) :
    hiddenScan (pre ++ post) = true := by
  induction pre with
  | nil =>
    rcases post with _ | ⟨c, cs⟩
    · simp [hiddenAt] at h
    · rw [List.nil_append]
      simp [hiddenScan, h]
  | cons a pre ih =>
    rw [List.cons_append]
    simp [hiddenScan, ih]

theorem c0Strip_decomp (l : List Char) :
    ∃ lead trail, l = lead ++ c0Strip l ++ trail ∧ ∀ c ∈ trail, isC0OrSpace c = true := by
  refine ⟨l.takeWhile isC0OrSpace,
    ((l.dropWhile isC0OrSpace).reverse.takeWhile isC0OrSpace).reverse, ?_, ?_⟩
  · have h1 : l.takeWhile isC0OrSpace ++ l.dropWhile isC0OrSpace = l :=
      List.takeWhile_append_dropWhile isC0OrSpace l
    have h2 : (l.dropWhile isC0OrSpace).reverse.takeWhile isC0OrSpace ++
        (l.dropWhile isC0OrSpace).reverse.dropWhile isC0OrSpace =
        (l.dropWhile isC0OrSpace).reverse :=
      List.takeWhile_append_dropWhile isC0OrSpace _
    have h4 : ((l.dropWhile isC0OrSpace).reverse.dropWhile isC0OrSpace).reverse ++
        ((l.dropWhile isC0OrSpace).reverse.takeWhile isC0OrSpace).reverse =
        l.dropWhile isC0OrSpace := by
      rw [← List.reverse_append, h2, List.reverse_reverse]
    show l = l.takeWhile isC0OrSpace ++
      ((l.dropWhile isC0OrSpace).reverse.dropWhile isC0OrSpace).reverse ++
      ((l.dropWhile isC0OrSpace).reverse.takeWhile isC0OrSpace).reverse
    rw [List.append_assoc, h4, h1]
  · intro c hc
    rw [List.mem_reverse] at hc
    exact List.mem_takeWhile_imp hc

theorem parseScheme_decomp {l : List Char} {sch : String} {rest : List Char}
    (h : parseScheme l = some (sch, rest)) : ∃ pre, l = pre ++ rest := by
  rcases l with _ | ⟨c, r⟩
  · simp [parseScheme] at h
  · rw [parseScheme] at h
    by_cases hl : isAsciiLetter c
    · rw [if_pos hl] at h
      split at h
      · rename_i rest2 hd
        simp only [Option.some.injEq, Prod.mk.injEq] at h
        refine ⟨c :: r.takeWhile isSchemeChar ++ [':'], ?_⟩
        have hsplit : r.takeWhile isSchemeChar ++ r.dropWhile isSchemeChar = r :=
          List.takeWhile_append_dropWhile isSchemeChar r
        rw [hd] at hsplit
        rw [← h.2]
        conv_lhs => rw [← hsplit]
        simp
      · simp at h
    · rw [if_neg hl] at h
      simp at h

theorem parseURL_decomp {l : List Char} {u : JsUrl} (h : parseURL l = some u) :
    (∀ c ∈ u.pathname.data, c ≠ '?' ∧ c ≠ '#') ∧
    (u.pathname = "/" ∨ ∃ pre rest, l = pre ++ u.pathname.data ++ rest ∧
      (rest = [] ∨ ∃ c cs, rest = c :: cs ∧ (c = '?' ∨ c = '#'))) := by
  rcases hs : parseScheme l with _ | ⟨sch, rest0⟩
  · rw [parseURL, hs, Option.none_bind] at h
    exact absurd h (by simp)
  · rw [parseURL, hs, Option.some_bind] at h
    by_cases h2 : rest0.take 2 = ['/', '/']
    · rw [if_pos h2] at h
      rcases hh : hostFromAuth ((rest0.drop 2).takeWhile authBreak) with _ | host
      · rw [hh, Option.map_none'] at h
        exact absurd h (by simp)
      · rw [hh, Option.map_some'] at h
        simp only [Option.some.injEq] at h
        subst h
        by_cases hp : splitQH ((rest0.drop 2).dropWhile authBreak) = []
        · constructor
          · intro c hc
            simp only [if_pos hp] at hc
            have : c = '/' := by simpa using hc
            rw [this]
            exact ⟨by decide, by decide⟩
          · left
            simp [if_pos hp]
        · constructor
          · intro c hc
            simp only [if_neg hp] at hc
            have := List.mem_takeWhile_imp hc
            simpa using this
          · right
            obtain ⟨pre0, hpre0⟩ := parseScheme_decomp hs
            refine ⟨pre0 ++ '/' :: '/' :: (rest0.drop 2).takeWhile authBreak,
              ((rest0.drop 2).dropWhile authBreak).dropWhile
                (fun c => c ≠ '?' ∧ c ≠ '#'), ?_, ?_⟩
            · have hA : (rest0.drop 2).takeWhile authBreak ++
                  (rest0.drop 2).dropWhile authBreak = rest0.drop 2 :=
                List.takeWhile_append_dropWhile _ _
              have hB : splitQH ((rest0.drop 2).dropWhile authBreak) ++
                  ((rest0.drop 2).dropWhile authBreak).dropWhile
                    (fun c => c ≠ '?' ∧ c ≠ '#') =
                  (rest0.drop 2).dropWhile authBreak :=
                List.takeWhile_append_dropWhile _ _
              have h3 : rest0 = '/' :: '/' :: rest0.drop 2 := by
                conv_lhs => rw [← List.take_append_drop 2 rest0]
                rw [h2]
                rfl
              rw [hpre0]
              conv_lhs => rw [h3, ← hA, ← hB]
              simp only [if_neg hp]
              simp
            · rcases hd : ((rest0.drop 2).dropWhile authBreak).dropWhile
                  (fun c => c ≠ '?' ∧ c ≠ '#') with _ | ⟨c, cs⟩
              · exact Or.inl rfl
              · refine Or.inr ⟨c, cs, rfl, ?_⟩
                have := dropWhile_head_false _ _ hd
                simp only [decide_eq_false_iff_not, Decidable.not_and_iff_or_not, not_not] at this
                tauto
    · rw [if_neg h2] at h
      exact absurd h (by simp)

/-- Lower-casing twice is the same as lower-casing once, on lists. -/
theorem map_jsCharLower_idem (l : List Char) :
    (l.map jsCharLower).map jsCharLower = l.map jsCharLower := by
  rw [List.map_map]
  exact List.map_congr_left (fun a _ => jsCharLower_idem a)

/-- Every blocked extension is either one of the hidden-pattern tokens or
one of the ten remaining extensions. -/
theorem blocked_split :
    ∀ x ∈ blockedExtensions, x ∈ hiddenTokens ∨ x ∈ nonHiddenBlocked := by
  decide

/-- Central lemma for the hidden-executable reachability analysis: when the
decoded string contains none of the characters the URL parser strips from
the middle of its input, an extracted extension that is one of the hidden
tokens forces the hidden-executable pattern to match the decoded string. -/
theorem computeExtension_none {d : String} (hu : jsURL d = none) :
    computeExtension d = extFromList d.data := by
  rw [computeExtension, hu]
  rfl

theorem computeExtension_some {d : String} {u : JsUrl} (hu : jsURL d = some u) :
    computeExtension d = extFromList (u.pathname.data.map jsCharLower) := by
  rw [computeExtension, hu]
  rfl

theorem hiddenScan_of_ext (d : String) (hfree : tabNLFree d = true)
    (hmem : computeExtension d ∈ hiddenTokens) : hiddenScan d.data = true := by
  have hstrip : stripTabNL d.data = d.data := by
    apply List.filter_eq_self.mpr
    exact List.all_eq_true.mp hfree
  rcases hu : jsURL d with _ | u
  · rw [computeExtension_none hu, extFromList] at hmem
    by_cases he0 : extMatchTail (splitQH d.data) = []
    · rw [he0] at hmem
      exact absurd hmem (by decide)
    · obtain ⟨pre2, hpre2⟩ := extMatchTail_spec _ he0
      obtain ⟨rest, hrest, hbound⟩ := splitQH_decomp d.data
      have hd : d.data = pre2 ++ '.' :: (extMatchTail (splitQH d.data) ++ rest) := by
        conv_lhs => rw [hrest, hpre2]
        simp
      rw [hd]
      apply hiddenScan_suffix
      apply hiddenAt_intro _ hmem _ _ rfl
      rcases hbound with h0 | ⟨c, cs, hc, hqh⟩
      · exact Or.inl h0
      · refine Or.inr ⟨c, cs, hc, ?_⟩
        rcases hqh with h | h <;> rw [h] <;> decide
  · rw [computeExtension_some hu, extFromList] at hmem
    obtain ⟨hqfree, hdec⟩ := parseURL_decomp (by rw [jsURL, hstrip] at hu; exact hu)
    rcases hdec with hroot | ⟨pre, rest, hsplit2, hbound⟩
    · rw [hroot] at hmem
      exact absurd hmem (by decide)
    · have hsq : splitQH (u.pathname.data.map jsCharLower) = u.pathname.data.map jsCharLower := by
        apply List.takeWhile_eq_self_iff.mpr
        intro a ha
        rw [List.mem_map] at ha
        obtain ⟨c, hc, hca⟩ := ha
        have hq := hqfree c hc
        subst hca
        have h63 : jsCharLower c ≠ '?' := by
          intro hx
          exact hq.1 ((jsCharLower_eq_iff (by decide) (by decide)).mp hx)
        have h35 : jsCharLower c ≠ '#' := by
          intro hx
          exact hq.2 ((jsCharLower_eq_iff (by decide) (by decide)).mp hx)
        simp [h63, h35]
      rw [hsq] at hmem
      by_cases he1 : extMatchTail (u.pathname.data.map jsCharLower) = []
      · rw [he1] at hmem
        exact absurd hmem (by decide)
      · obtain ⟨pre2, hpre2⟩ := extMatchTail_spec _ he1
        obtain ⟨a, b, hab, hma, hmb⟩ := List.map_eq_append_iff.mp hpre2
        rcases b with _ | ⟨d0, e0⟩
        · simp at hmb
        · simp only [List.map_cons, List.cons.injEq] at hmb
          have hd0 : d0 = '.' := (jsCharLower_eq_iff (by decide) (by decide)).mp hmb.1
          subst hd0
          have hext :
              (extMatchTail (u.pathname.data.map jsCharLower)).map jsCharLower
                = e0.map jsCharLower := by
            rw [← hmb.2, map_jsCharLower_idem]
          obtain ⟨lead, trail, hlt, htrail⟩ := c0Strip_decomp (stripTabNL d.data)
          rw [hstrip] at hlt
          have hfull : d.data = (lead ++ pre ++ a) ++ '.' :: (e0 ++ (rest ++ trail)) := by
            conv_lhs => rw [hlt, hsplit2, hab]
            simp
          rw [hfull]
          apply hiddenScan_suffix
          rw [hext] at hmem
          apply hiddenAt_intro _ hmem _ _ rfl
          rcases hbound with h0 | ⟨c, cs, hc, hqh⟩
          · subst h0
            rcases trail with _ | ⟨t, ts⟩
            · exact Or.inl rfl
            · refine Or.inr ⟨t, ts, rfl, ?_⟩
              have hw := htrail t (by simp)
              simp only [isC0OrSpace, decide_eq_true_eq] at hw
              simp only [isAsciiLetter, Bool.or_eq_false_iff, decide_eq_false_iff_not]
              omega
          · refine Or.inr ⟨c, cs ++ trail, by rw [hc]; simp, ?_⟩
            rcases hqh with h | h <;> rw [h] <;> decide

/-! ### Well-formedness of every verdict the validator can build -/

theorem append3_ne_empty (x y z : String) (hx : x.data ≠ []) : x ++ y ++ z ≠ "" := by
  intro h
  rw [string_eq_empty_iff, String.data_append, String.data_append] at h
  simp only [List.append_eq_nil] at h
  exact hx h.1.1

theorem wf_execVerdict (e : String) : wellFormedVerdict (execVerdict e) := by
  refine ⟨Or.inr (Or.inr rfl), ⟨fun h => ?_, fun h => ?_⟩, fun h => ?_, fun h => ?_,
    append3_ne_empty _ _ _ (by decide)⟩
  · exact absurd h (by simp [execVerdict])
  · exact absurd h (by simp [execVerdict])
  · exact absurd h (by simp [execVerdict])
  · simp [execVerdict]

theorem wf_archiveBlockVerdict (e : String) : wellFormedVerdict (archiveBlockVerdict e) := by
  refine ⟨Or.inr (Or.inr rfl), ⟨fun h => ?_, fun h => ?_⟩, fun h => ?_, fun h => ?_,
    append3_ne_empty _ _ _ (by decide)⟩
  · exact absurd h (by simp [archiveBlockVerdict])
  · exact absurd h (by simp [archiveBlockVerdict])
  · exact absurd h (by simp [archiveBlockVerdict])
  · simp [archiveBlockVerdict]

theorem wf_archiveWarnVerdict (e : String) : wellFormedVerdict (archiveWarnVerdict e) := by
  refine ⟨Or.inr (Or.inl rfl), ⟨fun h => ?_, fun h => ?_⟩, fun h => ?_, fun h => ?_,
    append3_ne_empty _ _ _ (by decide)⟩
  · exact absurd h (by simp [archiveWarnVerdict])
  · exact absurd h (by simp [archiveWarnVerdict])
  · simp [archiveWarnVerdict]
  · exact absurd h (by simp [archiveWarnVerdict])

theorem wf_macroVerdict (e : String) : wellFormedVerdict (macroVerdict e) := by
  refine ⟨Or.inr (Or.inl rfl), ⟨fun h => ?_, fun h => ?_⟩, fun h => ?_, fun h => ?_,
    append3_ne_empty _ _ _ (by decide)⟩
  · exact absurd h (by simp [macroVerdict])
  · exact absurd h (by simp [macroVerdict])
  · simp [macroVerdict]
  · exact absurd h (by simp [macroVerdict])

theorem wf_shortenerVerdict (x : String) : wellFormedVerdict (shortenerVerdict x) := by
  refine ⟨Or.inr (Or.inl rfl), ⟨fun h => ?_, fun h => ?_⟩, fun h => ?_, fun h => ?_,
    append3_ne_empty _ _ _ (by decide)⟩
  · exact absurd h (by simp [shortenerVerdict])
  · exact absurd h (by simp [shortenerVerdict])
  · simp [shortenerVerdict]
  · exact absurd h (by simp [shortenerVerdict])

theorem wf_httpFallback (d : String) : wellFormedVerdict (httpFallback d) := by
  rw [httpFallback]
  split_ifs <;> decide

theorem wf_hostChecks (d : String) : wellFormedVerdict (hostChecks d) := by
  rw [hostChecks]
  cases jsURL d with
  | none => exact wf_httpFallback d
  | some u =>
    show wellFormedVerdict (if listStartsWith (jsLower u.hostname) "xn--" then punycodeVerdict
      else if shortenerDomains.contains (jsLower u.hostname) then
        shortenerVerdict (jsLower u.hostname)
      else httpFallback d)
    split_ifs
    · decide
    · exact wf_shortenerVerdict _
    · exact wf_httpFallback d

theorem wf_extChecks (d : String) (v : Bool) : wellFormedVerdict (extChecks d v) := by
  rw [extChecks]
  split_ifs
  · decide
  · exact wf_execVerdict _
  · exact wf_archiveBlockVerdict _
  · exact wf_archiveWarnVerdict _
  · exact wf_macroVerdict _
  · exact wf_hostChecks d

theorem wf_urlChecks (d : String) (v : Bool) : wellFormedVerdict (urlChecks d v) := by
  rw [urlChecks]
  split_ifs
  · decide
  · decide
  · exact wf_extChecks d v

/-! ### Reason codes reachable from the host checks -/

theorem httpFallback_reason (d : String) :
    (httpFallback d).reasonCode = "HTTP" ∨ (httpFallback d).reasonCode = "SAFE" ∨
    (httpFallback d).reasonCode = "INVALID" := by
  rw [httpFallback]
  split_ifs <;> simp [httpVerdict, safeUrlVerdict, invalidVerdict]

theorem hostChecks_reason (d : String) :
    (hostChecks d).reasonCode ≠ "ARCHIVE" ∧ (hostChecks d).reasonCode ≠ "EXECUTABLE" := by
  have hf : (httpFallback d).reasonCode ≠ "ARCHIVE" ∧
      (httpFallback d).reasonCode ≠ "EXECUTABLE" := by
    rcases httpFallback_reason d with h | h | h <;> rw [h] <;> exact ⟨by decide, by decide⟩
  rw [hostChecks]
  cases jsURL d with
  | none => exact hf
  | some u =>
    show (if listStartsWith (jsLower u.hostname) "xn--" then punycodeVerdict
        else if shortenerDomains.contains (jsLower u.hostname) then
          shortenerVerdict (jsLower u.hostname)
        else httpFallback d).reasonCode ≠ "ARCHIVE" ∧
      (if listStartsWith (jsLower u.hostname) "xn--" then punycodeVerdict
        else if shortenerDomains.contains (jsLower u.hostname) then
          shortenerVerdict (jsLower u.hostname)
        else httpFallback d).reasonCode ≠ "EXECUTABLE"
    split_ifs
    · exact ⟨by decide, by decide⟩
    · constructor <;> intro hx <;> simp [shortenerVerdict] at hx
    · exact hf

/-! ### The trust flag only matters in the archive branch -/

theorem extChecks_flip (d : String) :
    ((extChecks d false).reasonCode = "ARCHIVE" →
      (extChecks d false).status = "block" ∧ (extChecks d true).status = "warn" ∧
      (extChecks d true).reasonCode = "ARCHIVE") ∧
    ((extChecks d false).reasonCode ≠ "ARCHIVE" → extChecks d false = extChecks d true) := by
  by_cases h1 : hiddenScan d.data = true
  · rw [extChecks, extChecks, if_pos h1, if_pos h1]
    exact ⟨fun h => absurd h (by decide), fun _ => rfl⟩
  · by_cases h2 : blockedExtensions.contains (computeExtension d) = true
    · rw [extChecks, extChecks, if_neg h1, if_neg h1, if_pos h2, if_pos h2]
      refine ⟨fun h => ?_, fun _ => rfl⟩
      simp [execVerdict] at h
    · by_cases h3 : archiveExtensions.contains (computeExtension d) = true
      · rw [extChecks, extChecks, if_neg h1, if_neg h1, if_neg h2, if_neg h2,
          if_pos h3, if_pos h3, if_pos (show (!false) = true from rfl),
          if_neg (show ¬(!true) = true by decide)]
        exact ⟨fun _ => ⟨rfl, rfl, rfl⟩, fun h => absurd rfl h⟩
      · by_cases h4 : macroEnabledDocs.contains (computeExtension d) = true
        · rw [extChecks, extChecks, if_neg h1, if_neg h1, if_neg h2, if_neg h2,
            if_neg h3, if_neg h3, if_pos h4]
          refine ⟨fun h => ?_, fun _ => rfl⟩
          simp [macroVerdict] at h
        · rw [extChecks, extChecks, if_neg h1, if_neg h1, if_neg h2, if_neg h2,
            if_neg h3, if_neg h3, if_neg h4]
          exact ⟨fun h => absurd h (hostChecks_reason d).1, fun _ => rfl⟩

/-! ### Claim theorems -/

/-- Claim C1: for every input type, content value and trust flag the
validator returns exactly one well-formed verdict record and never
propagates an exception; in particular a malformed percent escape
(`%zz`) and an unparsable URL (`http://`) still yield verdicts. -/
theorem validate_total :
    (∀ (t : String) (c : JsInput) (v : Bool), ∃! r, validateInputSafety t c v = r) ∧
    validateInputSafety "URL" (JsInput.str "https://example.com/%zz") false = safeUrlVerdict ∧
    validateInputSafety "URL" (JsInput.str "http://") false = httpVerdict :=
  ⟨fun t c v => ⟨validateInputSafety t c v, rfl, fun _ h => h.symm⟩, by decide, by decide⟩

/-- Claim C2 (amended): for every non-URL input type and every content
string that is non-blank after trimming, the validator returns `ok/SAFE`
regardless of content. -/
theorem nonUrl_bypass : ∀ (t s : String) (v : Bool), nonUrlTypes.contains t = true →
    jsTrim s ≠ "" → validateInputSafety t (JsInput.str s) v = nonUrlSafeVerdict := by
  intro t s v ht hs
  have hns : ¬(s = "" ∨ jsTrim s = "") := by
    rintro (h1 | h1)
    · exact hs (by rw [h1]; rfl)
    · exact hs h1
  simp only [validateInputSafety]
  rw [if_neg hns, if_pos ht]

/-- Claim C2 counterexample: for the non-URL type `Text` with empty
content the validator blocks with `EMPTY`, not `ok/SAFE`. -/
theorem nonUrl_bypass_cex :
    ¬((validateInputSafety "Text" (JsInput.str "") false).status = "ok" ∧
      (validateInputSafety "Text" (JsInput.str "") false).reasonCode = "SAFE") := by
  decide

/-- Claim C2 witness: the amended theorem applied at type `Text` and a
malicious-looking content string. -/
theorem nonUrl_bypass_witness :
    nonUrlTypes.contains "Text" = true ∧ jsTrim "javascript:alert(1)" ≠ "" ∧
    validateInputSafety "Text" (JsInput.str "javascript:alert(1)") false = nonUrlSafeVerdict :=
  ⟨by decide, by decide, nonUrl_bypass "Text" "javascript:alert(1)" false (by decide) (by decide)⟩

/-- Claim C3 (amended): a plainly-named `.exe` URL is blocked, but by the
hidden-executable rule (reason `EXECUTABLE_HIDDEN`), which runs before the
clean blocked-extension rule and already matches `.exe` at the end of the
decoded string. -/
theorem installer_exe_hidden :
    validateInputSafety "URL" (JsInput.str "https://example.com/installer.exe") false
      = hiddenVerdict := by
  decide

/-- Claim C3 counterexample: the verdict's reason code is not
`EXECUTABLE` as the claim states. -/
theorem installer_exe_cex :
    (validateInputSafety "URL" (JsInput.str "https://example.com/installer.exe") false).reasonCode
      ≠ "EXECUTABLE" := by
  decide

/-- Claim C4: for `http://bit.ly/abc` the shortener rule fires before the
plain-HTTP rule, yielding `warn/SHORTENER`. -/
theorem bitly_shortener :
    (validateInputSafety "URL" (JsInput.str "http://bit.ly/abc") false).status = "warn" ∧
    (validateInputSafety "URL" (JsInput.str "http://bit.ly/abc") false).reasonCode
      = "SHORTENER" := by
  decide

/-- Claim C5: the trust flag changes the verdict only in the archive case:
an `ARCHIVE` verdict for an unverified caller is a block and flips to
`warn/ARCHIVE` for a verified caller; any other verdict is identical for
both callers. -/
theorem archive_flip : ∀ (t : String) (c : JsInput),
    ((validateInputSafety t c false).reasonCode = "ARCHIVE" →
      (validateInputSafety t c false).status = "block" ∧
      (validateInputSafety t c true).status = "warn" ∧
      (validateInputSafety t c true).reasonCode = "ARCHIVE") ∧
    ((validateInputSafety t c false).reasonCode ≠ "ARCHIVE" →
      validateInputSafety t c false = validateInputSafety t c true) := by
  intro t c
  cases c with
  | nonString =>
    refine ⟨fun h => ?_, fun _ => rfl⟩
    simp only [validateInputSafety] at h
    simp [emptyVerdict] at h
  | str s =>
    simp only [validateInputSafety]
    split_ifs
    · exact ⟨fun h => absurd h (by decide), fun _ => rfl⟩
    · exact ⟨fun h => absurd h (by decide), fun _ => rfl⟩
    · simp only [urlChecks]
      split_ifs
      · exact ⟨fun h => absurd h (by decide), fun _ => rfl⟩
      · exact ⟨fun h => absurd h (by decide), fun _ => rfl⟩
      · exact extChecks_flip (normalizeContent s)

/-- Claim C5 witness: the archive flip observed on a concrete `.zip`
URL. -/
theorem archive_flip_witness :
    (validateInputSafety "URL" (JsInput.str "https://example.com/file.zip") false).status
      = "block" ∧
    (validateInputSafety "URL" (JsInput.str "https://example.com/file.zip") true).status
      = "warn" ∧
    (validateInputSafety "URL" (JsInput.str "https://example.com/file.zip") true).reasonCode
      = "ARCHIVE" :=
  (archive_flip "URL" (JsInput.str "https://example.com/file.zip")).1 (by decide)

/-- Claim C6: for input type URL and non-blank content whose normalized,
iteratively decoded form starts with one of the unsafe schemes, the
validator blocks with `UNSAFE_PROTOCOL`; in particular for
`javascript:alert(1)`. -/
theorem unsafe_protocol_block :
    (∀ (s : String) (v : Bool), jsTrim s ≠ "" →
      unsafeProtocols.any (fun p => ciStartsWith (normalizeContent s) p) = true →
      validateInputSafety "URL" (JsInput.str s) v = unsafeVerdict) ∧
    validateInputSafety "URL" (JsInput.str "javascript:alert(1)") false = unsafeVerdict := by
  constructor
  · intro s v hs hun
    have hns : ¬(s = "" ∨ jsTrim s = "") := by
      rintro (h1 | h1)
      · exact hs (by rw [h1]; rfl)
      · exact hs h1
    simp only [validateInputSafety]
    rw [if_neg hns, if_neg (by decide : ¬nonUrlTypes.contains "URL" = true)]
    rw [urlChecks, if_pos hun]
  · decide

/-- Claim C6 witness: the quantified part applied at
`javascript:alert(1)` with the trust flag set. -/
theorem unsafe_protocol_block_witness :
    jsTrim "javascript:alert(1)" ≠ "" ∧
    unsafeProtocols.any
      (fun p => ciStartsWith (normalizeContent "javascript:alert(1)") p) = true ∧
    validateInputSafety "URL" (JsInput.str "javascript:alert(1)") true = unsafeVerdict :=
  ⟨by decide, by decide, unsafe_protocol_block.1 "javascript:alert(1)" true (by decide) (by decide)⟩

/-- Claim C7: the validator is invariant under lower-casing the content:
for every input type, content string and trust flag, the verdict on the
content equals the verdict on its lower-cased form. -/
theorem case_insensitive : ∀ (t s : String) (v : Bool),
    validateInputSafety t (JsInput.str s) v
      = validateInputSafety t (JsInput.str (jsLower s)) v := by
  intro t s v
  simp only [validateInputSafety]
  have e1 : (s = "" ∨ jsTrim s = "") ↔ (jsLower s = "" ∨ jsTrim (jsLower s) = "") := by
    rw [jsLower_eq_empty_iff, jsTrim_jsLower, jsLower_eq_empty_iff]
  rw [normalizeContent_jsLower]
  exact if_congr e1 rfl rfl

/-- Claim C8: missing, non-string or blank content is blocked with
`EMPTY` for every input type, including the non-URL types, since the
emptiness check runs before the non-URL bypass. -/
theorem empty_blocks :
    (∀ (t : String) (c : JsInput) (v : Bool), contentBlank c = true →
      validateInputSafety t c v = emptyVerdict) ∧
    validateInputSafety "Text" (JsInput.str "   ") false = emptyVerdict := by
  constructor
  · intro t c v hb
    cases c with
    | nonString => rfl
    | str s =>
      simp only [contentBlank, Bool.or_eq_true, decide_eq_true_eq] at hb
      simp only [validateInputSafety]
      rw [if_pos hb]
  · decide

/-- Claim C8 witness: blank content of a non-URL type is blocked as
`EMPTY` via the theorem. -/
theorem empty_blocks_witness :
    contentBlank (JsInput.str "  ") = true ∧
    validateInputSafety "Wi-Fi" (JsInput.str "  ") true = emptyVerdict :=
  ⟨by decide, empty_blocks.1 "Wi-Fi" (JsInput.str "  ") true (by decide)⟩

/-- Claim C9: every verdict satisfies the status / reason-code pairing
invariant, and its message is non-empty. -/
theorem verdict_wellFormed : ∀ (t : String) (c : JsInput) (v : Bool),
    wellFormedVerdict (validateInputSafety t c v) := by
  intro t c v
  cases c with
  | nonString => exact (by decide : wellFormedVerdict emptyVerdict)
  | str s =>
    simp only [validateInputSafety]
    split_ifs
    · exact (by decide : wellFormedVerdict emptyVerdict)
    · exact (by decide : wellFormedVerdict nonUrlSafeVerdict)
    · exact wf_urlChecks _ v

/-- Claim C10 (amended): when the decoded content contains none of the
characters the URL parser strips (tab, LF, CR), the `EXECUTABLE` reason is
reachable only for the ten blocked extensions outside the hidden-pattern
token set; for the twelve hidden tokens the hidden-executable pattern
necessarily matches first. -/
theorem executable_reachability : ∀ (t s : String) (v : Bool),
    tabNLFree (normalizeContent s) = true →
    (validateInputSafety t (JsInput.str s) v).reasonCode = "EXECUTABLE" →
    computeExtension (normalizeContent s) ∈ nonHiddenBlocked := by
  intro t s v hfree hr
  simp only [validateInputSafety] at hr
  split_ifs at hr
  · exact absurd hr (by decide)
  · exact absurd hr (by decide)
  · rw [urlChecks] at hr
    split_ifs at hr
    · exact absurd hr (by decide)
    · exact absurd hr (by decide)
    · rw [extChecks] at hr
      split_ifs at hr with h1 h2 h3 h4 h5
      · exact absurd hr (by decide)
      · have hmem : computeExtension (normalizeContent s) ∈ blockedExtensions := by
          simpa using h2
        rcases blocked_split _ hmem with hh | hh
        · exact absurd (hiddenScan_of_ext _ hfree hh) h1
        · exact hh
      · simp [archiveBlockVerdict] at hr
      · simp [archiveWarnVerdict] at hr
      · simp [macroVerdict] at hr
      · exact absurd hr (hostChecks_reason _).2

/-- Claim C10 counterexample: a URL with an embedded line feed parses to
pathname `/f.exe` (extension `exe`, one of the twelve hidden tokens), yet
the hidden-executable pattern does not match the raw decoded string, so the
clean blocked-extension rule fires with reason `EXECUTABLE`. -/
theorem executable_reachability_cex :
    computeExtension (normalizeContent "https://example.com/f.ex\ne") = "exe" ∧
    "exe" ∈ hiddenTokens ∧
    (validateInputSafety "URL" (JsInput.str "https://example.com/f.ex\ne") false).status
      = "block" ∧
    (validateInputSafety "URL" (JsInput.str "https://example.com/f.ex\ne") false).reasonCode
      = "EXECUTABLE" := by
  refine ⟨by decide, by decide, by decide, by decide⟩

/-- Claim C10 witness: the amended theorem applied to a clean `.pkg`
URL. -/
theorem executable_reachability_witness :
    tabNLFree (normalizeContent "https://example.com/setup.pkg") = true ∧
    computeExtension (normalizeContent "https://example.com/setup.pkg") ∈ nonHiddenBlocked :=
  ⟨by decide, executable_reachability "URL" "https://example.com/setup.pkg" false
    (by decide) (by decide)⟩

end QRVerse
